import Mathlib

/-!
Verification development for the cmndr package (src/cmd.go): a command-tree
CLI helper.  The Go code is shallowly embedded below: `Cmd` mirrors the Go
struct, `parseArgs` mirrors the standard library flag parsing loop the code
delegates to (string-valued flags; the flag collaborator's value coercions are
out of scope), `ExecArgs` mirrors `Cmd.ExecArgs` with process effects made
explicit as an event trace plus an `ExecResult`, and the returned `Cmd`
reflects the in-place mutations the Go code performs on the tree.
-/

namespace Cmndr

/-- Exit/abort policy of a flag set, mirroring Go's `flag.ErrorHandling`. -/
inductive ErrorHandling where
  | continueOnError
  | exitOnError
  | panicOnError
deriving DecidableEq, Repr

/-- Which usage renderer a flag set carries: the flag library's default one,
or the custom renderer `newUsage` installs (a closure over the owning
command, modelled by rendering from the owning node at call time). -/
inductive UsageKind where
  | default
  | cmndr
deriving DecidableEq, Repr

/-- Model of Go's `flag.FlagSet` as cmndr uses it: `formal` is the registered
flags (name paired with current string value), `args` is the positional state
`Parse` stores (read back via `Arg`, `Args`, `NArg`). -/
structure FlagSet where
  name : String
  errorHandling : ErrorHandling
  usage : UsageKind
  formal : List (String × String)
  args : List String
deriving DecidableEq, Repr

/-- `flag.NewFlagSet(name, flag.ExitOnError)` exactly as cmndr invokes it:
every creation site in the package (`New`, the lazy creation in `ExecArgs`,
the lazy creation in `newUsage`) passes `flag.ExitOnError`, and a fresh flag
set starts with the library's default usage renderer. -/
def newFlagSet (name : String) : FlagSet :=
  { name := name, errorHandling := .exitOnError, usage := .default,
    formal := [], args := [] }

/-- Reference to a `RunFunc`: either the help closure `newHelpCmd` builds
(which operates on the parent node), or a user-supplied action identified by
an index into an action environment supplied to the dispatcher. -/
inductive RunRef where
  | help
  | user (id : Nat)
deriving DecidableEq, Repr

/-- Model of cmndr's `Cmd` struct.  `commands` models the Go
`map[string]*Cmd`: an association list whose keys are unique (a Go map cannot
hold duplicate keys); `none` is the nil map. -/
inductive Cmd where
  | mk (name description : String) (flags : Option FlagSet)
      (commands : Option (List (String × Cmd))) (run : Option RunRef)

def Cmd.name : Cmd → String
  | .mk n _ _ _ _ => n

def Cmd.description : Cmd → String
  | .mk _ d _ _ _ => d

def Cmd.flags : Cmd → Option FlagSet
  | .mk _ _ f _ _ => f

def Cmd.commands : Cmd → Option (List (String × Cmd))
  | .mk _ _ _ cs _ => cs

def Cmd.run : Cmd → Option RunRef
  | .mk _ _ _ _ r => r

/-- Map lookup on the subcommand map (`c.Commands[name]`). -/
def lookupCmd : List (String × Cmd) → String → Option Cmd
  | [], _ => none
  | (k, v) :: t, n => if k = n then some v else lookupCmd t n

/-- Map update at an existing key (the in-place mutation of `sub` seen through
the parent's map after a recursive `ExecArgs` call). -/
def updateCmd : List (String × Cmd) → String → Cmd → List (String × Cmd)
  | [], _, _ => []
  | (k, v) :: t, n, v' => if k = n then (k, v') :: t else (k, v) :: updateCmd t n v'

/-- Map insert (`c.Commands[cmd.Name] = cmd`): replaces an existing binding,
otherwise adds one. -/
def insertCmd : List (String × Cmd) → String → Cmd → List (String × Cmd)
  | [], k, v => [(k, v)]
  | (k0, v0) :: t, k, v => if k0 = k then (k, v) :: t else (k0, v0) :: insertCmd t k v

/-- Lookup of a registered flag by name (`f.formal[name]`). -/
def lookupStr : List (String × String) → String → Option String
  | [], _ => none
  | (k, v) :: t, n => if k = n then some v else lookupStr t n

/-- Setting a flag's value during parsing (`flag.Value.Set(value)`; string
flags never fail to set). -/
def setFlag : List (String × String) → String → String → List (String × String)
  | [], _, _ => []
  | (k, v0) :: t, n, v => if k = n then (k, v) :: t else (k, v0) :: setFlag t n v

/-- One observable effect of a dispatch.  `line` is a line written to the
error stream.  `parseDiag` is the specific line
`fmt.Fprintln(os.Stderr, "error parsing arguments:", err)` of `Cmd.ExecArgs`,
rendered as `error parsing arguments: <detail>`; it is kept as its own
constructor so its provenance is trackable.  `action` records a user
`RunFunc` being invoked, with the name of the node it runs on and the
argument list it is passed. -/
inductive Event where
  | line (text : String)
  | parseDiag (detail : String)
  | action (id : Nat) (cmdName : String) (args : List String)
deriving DecidableEq, Repr

/-- How a dispatch terminates: fall through to the caller, `os.Exit(code)`,
or a panic (reachable only through a user-built `flag.PanicOnError` set). -/
inductive ExecResult where
  | returned
  | exited (code : Nat)
  | panicked (message : String)
deriving DecidableEq, Repr

/-- Error produced by the flag parsing loop: `flag.ErrHelp`, or a message
(`bad flag syntax`, `flag provided but not defined`, `flag needs an
argument`). -/
inductive FlagErr where
  | help
  | fail (msg : String)
deriving DecidableEq, Repr

/-- The error text `Cmd.ExecArgs` receives from `Parse`
(`flag.ErrHelp` renders as `flag: help requested`). -/
def flagErrMsg : FlagErr → String
  | .help => "flag: help requested"
  | .fail m => m

/-- Go's `fmt` `%q` verb for the names appearing here: wrap in double quotes
(escape sequences for exotic characters are not modelled). -/
def goQuote (s : String) : String := "\"" ++ s ++ "\""

/-- Go flag parsing treats a token as a candidate flag iff it has at least
two characters and starts with a minus (`parseOne`: stop when
`len(s) < 2 || s[0] != '-'`). -/
def flagLike (s : String) : Bool :=
  match s.data with
  | '-' :: _ :: _ => true
  | _ => false

/-- Split a flag body at the first `=` at index ≥ 1 ("equals cannot be
first"), yielding the name characters and the value, if any. -/
def splitEqAux : List Char → List Char × Option String
  | [] => ([], none)
  | c :: rest =>
    if c = '=' then ([], some (String.mk rest))
    else
      let r := splitEqAux rest
      (c :: r.1, r.2)

def splitAtEq : List Char → List Char × Option String
  | [] => ([], none)
  | c0 :: rest =>
    let r := splitEqAux rest
    (c0 :: r.1, r.2)

/-- Outcome of one step of the flag parsing loop: stop (the given list is
the positional arguments), fail (with the positional state Go leaves in
`f.args` at that point), or keep consuming. -/
inductive ParseStep where
  | stop (positionals : List String)
  | err (remaining : List String) (e : FlagErr)
  | cont (fm : List (String × String)) (rest : List String)
deriving DecidableEq, Repr

/-- The flag name in a `-name` or `-name=value` body. -/
def flagNameOf (nameChars : List Char) : String :=
  String.mk (splitAtEq nameChars).1

/-- The `=value` part of a flag body, if present. -/
def flagValOf (nameChars : List Char) : Option String :=
  (splitAtEq nameChars).2

/-- The part of `flag.FlagSet.parseOne` after the minuses have been
stripped: check for bad syntax, split off an `=value`, look the flag up
(with the `help`/`h` special case for unknown names), and take the value
from the body or from the next argument. -/
def parseFlagBody (fm : List (String × String)) (s : String) (rest : List String)
    (nameChars : List Char) : ParseStep :=
  if nameChars.headD ' ' = '-' ∨ nameChars.headD ' ' = '=' then
    ParseStep.err (s :: rest) (.fail ("bad flag syntax: " ++ s))
  else
    match lookupStr fm (flagNameOf nameChars) with
    | none =>
      if flagNameOf nameChars = "help" ∨ flagNameOf nameChars = "h" then
        ParseStep.err rest .help
      else
        ParseStep.err rest (.fail ("flag provided but not defined: -" ++ flagNameOf nameChars))
    | some _ =>
      match flagValOf nameChars with
      | some v => ParseStep.cont (setFlag fm (flagNameOf nameChars) v) rest
      | none =>
        match rest with
        | v :: rest2 => ParseStep.cont (setFlag fm (flagNameOf nameChars) v) rest2
        | [] => ParseStep.err [] (.fail ("flag needs an argument: -" ++ flagNameOf nameChars))

/-- One step of Go's `flag.FlagSet.parseOne`, for string-valued flags:
stop at the first non-flag token, consume the `--` terminator, strip one or
two minuses, and process the flag body. -/
def parseOne (fm : List (String × String)) (s : String) (rest : List String) : ParseStep :=
  match s.data with
  | ['-', '-'] =>
    -- "--" terminates the flags; it is consumed
    ParseStep.stop rest
  | '-' :: '-' :: nameChars => parseFlagBody fm s rest nameChars
  | '-' :: c2 :: cs => parseFlagBody fm s rest (c2 :: cs)
  | _ => ParseStep.stop (s :: rest)

theorem parseFlagBody_cont_length {fm : List (String × String)} {s : String}
    {rest : List String} {nameChars : List Char} {fm' : List (String × String)}
    {rest' : List String} (h : parseFlagBody fm s rest nameChars = ParseStep.cont fm' rest') :
    rest'.length ≤ rest.length := by
  unfold parseFlagBody at h
  repeat' split at h
  all_goals injections
  all_goals subst_vars
  all_goals simp_all

theorem parseOne_cont_length {fm : List (String × String)} {s : String}
    {rest : List String} {fm' : List (String × String)} {rest' : List String}
    (h : parseOne fm s rest = ParseStep.cont fm' rest') : rest'.length ≤ rest.length := by
  unfold parseOne at h
  split at h
  · injections
  · exact parseFlagBody_cont_length h
  · exact parseFlagBody_cont_length h
  · injections

/-- The `flag.FlagSet.Parse` token loop: iterate `parseOne` until it stops
or fails; return the updated flags, the positional arguments, and the
error, if any. -/
def parseArgs : List (String × String) → List String →
    List (String × String) × List String × Option FlagErr
  | fm, [] => (fm, [], none)
  | fm, s :: rest =>
    match h : parseOne fm s rest with
    | .stop pos => (fm, pos, none)
    | .err rem e => (fm, rem, e)
    | .cont fm' rest' => parseArgs fm' rest'
termination_by _ argv => argv.length
decreasing_by
  simp_wf
  have := parseOne_cont_length h
  omega

/-- `sort.Strings` (the flag library's `PrintDefaults` sorts the same way):
lexicographic sort of names. -/
def sortStrings (l : List String) : List String :=
  List.insertionSort (· ≤ ·) l

/-- `FlagSet.PrintDefaults`: one line per registered flag, in lexicographic
name order (the exact line format is the flag collaborator's; only the name
per line is modelled). -/
def printDefaults (fs : FlagSet) : List Event :=
  (sortStrings (fs.formal.map Prod.fst)).map (fun n => Event.line ("  -" ++ n))

/-- The flag library's default usage renderer (`defaultUsage`). -/
def defaultUsage (fs : FlagSet) : List Event :=
  Event.line (if fs.name = "" then "Usage:" else "Usage of " ++ fs.name ++ ":") ::
    printDefaults fs

/-- `printSubcommands`: nothing for a nil map; otherwise a blank line, a
`Commands` header, and one row per subcommand, sorted lexicographically by
name (the tab characters feed the tabwriter, which only adjusts spacing). -/
def printSubcommands (c : Cmd) : List Event :=
  match c.commands with
  | none => []
  | some cmds =>
    Event.line "" :: Event.line "Commands" ::
      (sortStrings (cmds.map Prod.fst)).map
        (fun n =>
          Event.line ("\t\t" ++ n ++ "\t" ++ ((lookupCmd cmds n).map Cmd.description).getD ""))

/-- The closure `newUsage(c)` builds: lazily create the flag set if nil
(named after the node, exit-on-error), then render
`<name> - <description>`, the subcommand listing, a blank line, the `Flags`
header and the flag defaults.  Returns the (possibly mutated) node. -/
def newUsage (c : Cmd) : List Event × Cmd :=
  match c with
  | Cmd.mk n d fl cmds r =>
    let fs := match fl with
      | none => newFlagSet n
      | some fs => fs
    let c' := Cmd.mk n d (some fs) cmds r
    (Event.line (n ++ " - " ++ d) ::
      (printSubcommands c' ++ (Event.line "" :: Event.line "Flags" :: printDefaults fs)), c')

/-- `c.Flags.Usage()`: dispatch to the renderer the flag set carries.  A nil
flag set would be a nil-pointer dereference in Go; every call site ensures
the flag set exists first, so that case is unreachable (modelled as no
output). -/
def flagsUsage (c : Cmd) : List Event × Cmd :=
  match c.flags with
  | none => ([], c)
  | some fs =>
    match fs.usage with
    | .default => (defaultUsage fs, c)
    | .cmndr => newUsage c

/-- The help `RunFunc` the closure in `newHelpCmd(parent)` implements:
pick the parent (empty args, or nil subcommand map), else the named
subcommand; a miss is the `no such command: %q` error.  The chosen node's
help is its `<name> - <description>` line plus subcommand listing when it has
no flag set, else its `Usage()` rendering. -/
def helpTarget (parent : Cmd) (args : List String) : Option Cmd :=
  match args, parent.commands with
  | [], _ => some parent
  | _, none => some parent
  | a :: _, some cmds => lookupCmd cmds a

def helpRun (parent : Cmd) (args : List String) : List Event × Option String :=
  match helpTarget parent args with
  | none => ([], some ("no such command: " ++ goQuote (args.headD "")))
  | some pp =>
    match pp.flags with
    | none => (Event.line (pp.name ++ " - " ++ pp.description) :: printSubcommands pp, none)
    | some _ => ((flagsUsage pp).1, none)

/-- The tail of `Cmd.ExecArgs` after flag parsing and subcommand matching:
with no `Run` function, print usage and exit 1; otherwise call the action
with the positional arguments, and on an action error print
`error: <message>` and exit 1.  `parent` is the node the help closure was
created under (the dispatching parent; `none` only for a top-level call, in
which case the node itself stands in). -/
def runPhase (env : Nat → List String → Option String) (parent : Option Cmd)
    (c : Cmd) (positionals : List String) : List Event × ExecResult × Cmd :=
  match c.run with
  | none => ((flagsUsage c).1, .exited 1, (flagsUsage c).2)
  | some .help =>
    match (helpRun (parent.getD c) positionals).2 with
    | some m =>
      ((helpRun (parent.getD c) positionals).1 ++ [Event.line ("error: " ++ m)], .exited 1, c)
    | none => ((helpRun (parent.getD c) positionals).1, .returned, c)
  | some (.user i) =>
    match env i positionals with
    | some m => ([Event.action i c.name positionals, Event.line ("error: " ++ m)], .exited 1, c)
    | none => ([Event.action i c.name positionals], .returned, c)

/-- What the flag library itself prints on a parse failure before `Parse`
regains control: `failf` prints the error then the usage text; `ErrHelp`
prints the usage text only. -/
def parseFailTrace (e : FlagErr) (c : Cmd) : List Event :=
  match e with
  | .fail m => Event.line m :: (flagsUsage c).1
  | .help => (flagsUsage c).1

/-- The error handling `flag.FlagSet.Parse` and `Cmd.ExecArgs` perform on a
parse error: with `ContinueOnError` the error returns to `ExecArgs`, which
prints the `error parsing arguments:` diagnostic and exits 2; `ExitOnError`
exits inside the library (0 for `ErrHelp`, else 2); `PanicOnError` panics. -/
def parseFailResult (e : FlagErr) (policy : ErrorHandling) (c : Cmd) :
    List Event × ExecResult × Cmd :=
  match policy with
  | .continueOnError =>
    (parseFailTrace e c ++ [Event.parseDiag (flagErrMsg e)], .exited 2, (flagsUsage c).2)
  | .exitOnError =>
    (parseFailTrace e c, .exited (match e with | .help => 0 | .fail _ => 2), (flagsUsage c).2)
  | .panicOnError => (parseFailTrace e c, .panicked (flagErrMsg e), (flagsUsage c).2)

theorem lookupCmd_sizeOf {l : List (String × Cmd)} {n : String} {sub : Cmd}
    (h : lookupCmd l n = some sub) : sizeOf sub < sizeOf l := by
  induction l with
  | nil => simp [lookupCmd] at h
  | cons hd t ih =>
    obtain ⟨k, v⟩ := hd
    simp only [lookupCmd] at h
    split at h
    · cases h
      simp
      omega
    · have := ih h
      simp
      omega

/-- The subcommand-matching condition of `Cmd.ExecArgs`: a non-nil map, a
nonempty first positional argument, and a registered subcommand of that
name. -/
def subMatch (cmdsOpt : Option (List (String × Cmd))) (arg0 : String) : Option Cmd :=
  match cmdsOpt with
  | some cmds => if arg0 = "" then none else lookupCmd cmds arg0
  | none => none

theorem subMatch_sizeOf {cmdsOpt : Option (List (String × Cmd))} {arg0 : String}
    {sub : Cmd} (h : subMatch cmdsOpt arg0 = some sub) : sizeOf sub < sizeOf cmdsOpt := by
  match cmdsOpt with
  | none => simp [subMatch] at h
  | some cmds =>
    simp only [subMatch] at h
    split at h
    · simp at h
    · have := lookupCmd_sizeOf h
      simp
      omega

/-- `Cmd.ExecArgs`: ensure a flag set exists (lazily created with the
program name and `flag.ExitOnError`), parse the arguments, and either fail
per the flag set's error policy, recurse into the subcommand named by the
first positional argument, or run the node's own action.  `env` interprets
user actions, `progName` is `os.Args[0]`, `parent` is the dispatching parent
node.  The returned `Cmd` is the node with the mutations dispatch performed
on it (lazy flag-set creation, parse state, mutated subcommands). -/
def ExecArgs (env : Nat → List String → Option String) (progName : String) :
    Option Cmd → Cmd → List String → List Event × ExecResult × Cmd
  | parent, Cmd.mk n d fl cmdsOpt run, args =>
    let fl1 : FlagSet := fl.getD (newFlagSet progName)
    let pr := parseArgs fl1.formal args
    let fs' : FlagSet := { fl1 with formal := pr.1, args := pr.2.1 }
    match pr.2.2 with
    | some e => parseFailResult e fl1.errorHandling (Cmd.mk n d (some fs') cmdsOpt run)
    | none =>
      match h : subMatch cmdsOpt (pr.2.1.headD "") with
      | some sub =>
        let r := ExecArgs env progName (some (Cmd.mk n d (some fs') cmdsOpt run)) sub
            (if pr.2.1.length > 1 then pr.2.1.tail else [])
        (r.1, r.2.1,
          Cmd.mk n d (some fs') (some (updateCmd (cmdsOpt.getD []) (pr.2.1.headD "") r.2.2)) run)
      | none => runPhase env parent (Cmd.mk n d (some fs') cmdsOpt run) pr.2.1
termination_by _ c _ => sizeOf c
decreasing_by
  simp_wf
  have := subMatch_sizeOf h
  omega

theorem parseArgs_nil (fm : List (String × String)) : parseArgs fm [] = (fm, [], none) := by
  rw [parseArgs]

theorem parseArgs_cons_stop {fm : List (String × String)} {s : String} {rest pos : List String}
    (h : parseOne fm s rest = ParseStep.stop pos) :
    parseArgs fm (s :: rest) = (fm, pos, none) := by
  rw [parseArgs]
  split
  all_goals simp_all

theorem parseArgs_cons_err {fm : List (String × String)} {s : String} {rest rem : List String}
    {e : FlagErr} (h : parseOne fm s rest = ParseStep.err rem e) :
    parseArgs fm (s :: rest) = (fm, rem, some e) := by
  rw [parseArgs]
  split
  all_goals simp_all

theorem parseArgs_cons_cont {fm fm' : List (String × String)} {s : String}
    {rest rest' : List String} (h : parseOne fm s rest = ParseStep.cont fm' rest') :
    parseArgs fm (s :: rest) = parseArgs fm' rest' := by
  rw [parseArgs]
  split
  all_goals simp_all

theorem flagLike_eq_false {s : String} (h : flagLike s = false) (c2 : Char) (cs : List Char) :
    s.data ≠ '-' :: c2 :: cs := by
  intro hd
  rw [flagLike, hd] at h
  simp at h

/-- A token that Go flag parsing does not treat as a flag stops the loop at
once: everything from it on is positional. -/
theorem parseArgs_stop {s : String} (h : flagLike s = false) (fm : List (String × String))
    (rest : List String) : parseArgs fm (s :: rest) = (fm, s :: rest, none) := by
  refine parseArgs_cons_stop ?_
  unfold parseOne
  split
  any_goals rfl
  all_goals exact absurd (by assumption) (flagLike_eq_false h _ _)

/-- `Cmd.AddCmd`: register a subcommand, replacing a same-named one; a
nameless subcommand is a panic, modelled as `Except.error` (Go creates the
empty map before the name check; that pre-panic mutation is not observable
here since the panic aborts). -/
def Cmd.AddCmd (c sub : Cmd) : Except String Cmd :=
  match c with
  | Cmd.mk n d fl cmdsOpt run =>
    let cmds := cmdsOpt.getD []
    if sub.name = "" then .error "cannot add nameless subcommand"
    else .ok (Cmd.mk n d fl (some (insertCmd cmds sub.name sub)) run)

/-- `newHelpCmd(parent)`: the synthesized help subcommand (nil flag set, nil
subcommand map, the help action). -/
def newHelpCmd (parent : Cmd) : Cmd :=
  Cmd.mk "help" ("Print the help message for " ++ parent.name ++ " or a subcommand")
    none none (some RunRef.help)

/-- `New(name, run)`: flag set named after the node with `flag.ExitOnError`
and the custom usage renderer installed, plus the auto-registered help
subcommand ("help" is nonempty, so `AddCmd` cannot panic). -/
def New (name : String) (run : Option RunRef) : Cmd :=
  let c := Cmd.mk name "" (some { newFlagSet name with usage := UsageKind.cmndr }) none run
  match c.AddCmd (newHelpCmd c) with
  | .ok c' => c'
  | .error _ => c

/-- Lazily creating the flag set (`ExecArgs` on a nil `Flags` field) gives
the same dispatch as starting from the fresh flag set. -/
theorem ExecArgs_flags_none (env : Nat → List String → Option String) (progName : String)
    (parent : Option Cmd) (n d : String) (cmdsOpt : Option (List (String × Cmd)))
    (run : Option RunRef) (args : List String) :
    ExecArgs env progName parent (Cmd.mk n d none cmdsOpt run) args
      = ExecArgs env progName parent (Cmd.mk n d (some (newFlagSet progName)) cmdsOpt run) args := by
  rw [ExecArgs, ExecArgs]
  rfl

/-- `ExecArgs` when parsing succeeds and the subcommand match fails: run the
node's own phase on the positionals, with the parse state stored. -/
theorem ExecArgs_run {env : Nat → List String → Option String} {progName : String}
    {parent : Option Cmd} {n d : String} {fs : FlagSet}
    {cmdsOpt : Option (List (String × Cmd))} {run : Option RunRef} {args : List String}
    {fm2 : List (String × String)} {pos : List String}
    (hp : parseArgs fs.formal args = (fm2, pos, none))
    (hm : subMatch cmdsOpt (pos.headD "") = none) :
    ExecArgs env progName parent (Cmd.mk n d (some fs) cmdsOpt run) args
      = runPhase env parent
          (Cmd.mk n d (some { fs with formal := fm2, args := pos }) cmdsOpt run) pos := by
  rw [ExecArgs]
  simp only [Option.getD_some, hp]
  split
  · simp_all
  · rfl

/-- `ExecArgs` when parsing succeeds and the first positional matches a
registered subcommand: recurse into it (with the tail of the positionals, or
an empty list when only the matching token remained), and the parent's map
holds the mutated child afterwards. -/
theorem ExecArgs_sub {env : Nat → List String → Option String} {progName : String}
    {parent : Option Cmd} {n d : String} {fs : FlagSet}
    {cmdsOpt : Option (List (String × Cmd))} {run : Option RunRef} {args : List String}
    {fm2 : List (String × String)} {pos : List String} {sub : Cmd}
    (hp : parseArgs fs.formal args = (fm2, pos, none))
    (hm : subMatch cmdsOpt (pos.headD "") = some sub) :
    ExecArgs env progName parent (Cmd.mk n d (some fs) cmdsOpt run) args
      = ((ExecArgs env progName
            (some (Cmd.mk n d (some { fs with formal := fm2, args := pos }) cmdsOpt run)) sub
            (if pos.length > 1 then pos.tail else [])).1,
         (ExecArgs env progName
            (some (Cmd.mk n d (some { fs with formal := fm2, args := pos }) cmdsOpt run)) sub
            (if pos.length > 1 then pos.tail else [])).2.1,
         Cmd.mk n d (some { fs with formal := fm2, args := pos })
           (some (updateCmd (cmdsOpt.getD []) (pos.headD "")
             (ExecArgs env progName
               (some (Cmd.mk n d (some { fs with formal := fm2, args := pos }) cmdsOpt run)) sub
               (if pos.length > 1 then pos.tail else [])).2.2)) run) := by
  rw [ExecArgs]
  simp only [Option.getD_some, hp]
  split
  · simp_all
  · simp_all

/-- `ExecArgs` when parsing fails: the flag set's error policy decides. -/
theorem ExecArgs_parse_fail {env : Nat → List String → Option String} {progName : String}
    {parent : Option Cmd} {n d : String} {fs : FlagSet}
    {cmdsOpt : Option (List (String × Cmd))} {run : Option RunRef} {args : List String}
    {fm2 : List (String × String)} {pos : List String} {e : FlagErr}
    (hp : parseArgs fs.formal args = (fm2, pos, some e)) :
    ExecArgs env progName parent (Cmd.mk n d (some fs) cmdsOpt run) args
      = parseFailResult e fs.errorHandling
          (Cmd.mk n d (some { fs with formal := fm2, args := pos }) cmdsOpt run) := by
  rw [ExecArgs]
  simp only [Option.getD_some, hp]

theorem mem_printDefaults_line {e : Event} {fs : FlagSet} (h : e ∈ printDefaults fs) :
    ∃ t, e = Event.line ("  -" ++ t) := by
  simp only [printDefaults, List.mem_map] at h
  obtain ⟨t, _, rfl⟩ := h
  exact ⟨t, rfl⟩

theorem mem_printSubcommands_line {e : Event} {c : Cmd} (h : e ∈ printSubcommands c) :
    ∃ t, e = Event.line t := by
  unfold printSubcommands at h
  split at h
  · simp at h
  · simp only [List.mem_cons, List.mem_map] at h
    rcases h with rfl | rfl | ⟨t, _, rfl⟩
    · exact ⟨_, rfl⟩
    · exact ⟨_, rfl⟩
    · exact ⟨_, rfl⟩

theorem mem_flagsUsage_line {e : Event} {c : Cmd} (h : e ∈ (flagsUsage c).1) :
    ∃ t, e = Event.line t := by
  unfold flagsUsage at h
  split at h
  · simp at h
  · split at h
    · simp only [defaultUsage, List.mem_cons] at h
      rcases h with rfl | h
      · exact ⟨_, rfl⟩
      · obtain ⟨t, rfl⟩ := mem_printDefaults_line h
        exact ⟨_, rfl⟩
    · rcases c with ⟨n, d, fl, cmds, r⟩
      simp only [newUsage, List.mem_cons, List.mem_append] at h
      rcases h with rfl | (h | (rfl | rfl | h))
      · exact ⟨_, rfl⟩
      · exact mem_printSubcommands_line h
      · exact ⟨_, rfl⟩
      · exact ⟨_, rfl⟩
      · obtain ⟨t, rfl⟩ := mem_printDefaults_line h
        exact ⟨_, rfl⟩

theorem descr_line_ne_commands (n d : String) : n ++ " - " ++ d ≠ "Commands" := by
  intro h
  have h2 : (n ++ " - " ++ d).data = "Commands".data := by rw [h]
  simp [String.data_append] at h2
  have h4 : ' ' ∈ n.data ++ ' ' :: '-' :: ' ' :: d.data := by simp
  rw [h2] at h4
  simp at h4

theorem defaults_line_ne_commands (t : String) : "  -" ++ t ≠ "Commands" := by
  intro h
  have h2 : ("  -" ++ t).data = "Commands".data := by rw [h]
  simp [String.data_append] at h2

/-- C3: a first positional argument that matches no registered subcommand
name is not consumed: the node's own action receives the full positional
list (the action event records `p :: rest`), and the action's error, if any,
is printed with the `error: ` prefix with exit status 1. -/
theorem claim3_unmatched_full_args (env : Nat → List String → Option String)
    (progName : String) (parent : Option Cmd) (n d : String) (fs : FlagSet)
    (cmdsOpt : Option (List (String × Cmd))) (i : Nat) (p : String) (rest : List String)
    (hp : flagLike p = false) (hm : subMatch cmdsOpt p = none) :
    ExecArgs env progName parent (Cmd.mk n d (some fs) cmdsOpt (some (RunRef.user i)))
        (p :: rest)
      = (Event.action i n (p :: rest) ::
          (match env i (p :: rest) with
           | some m => [Event.line ("error: " ++ m)]
           | none => []),
         (match env i (p :: rest) with
          | some _ => ExecResult.exited 1
          | none => ExecResult.returned),
         Cmd.mk n d (some { fs with args := p :: rest }) cmdsOpt (some (RunRef.user i))) := by
  have hparse : parseArgs fs.formal (p :: rest) = (fs.formal, p :: rest, none) :=
    parseArgs_stop hp fs.formal rest
  have hsm : subMatch cmdsOpt ((p :: rest).headD "") = none := by
    simpa using hm
  rw [ExecArgs_run hparse hsm]
  simp only [runPhase, Cmd.run, Cmd.name]
  cases env i (p :: rest) <;> rfl

theorem claim3_unmatched_full_args_witness :
    flagLike "other" = false ∧
      ExecArgs (fun _ _ => none) "prog" none
          (Cmd.mk "root" "" (some (newFlagSet "root"))
            (some [("sub", Cmd.mk "sub" "" none none none)]) (some (RunRef.user 5)))
          ["other", "x"]
        = (Event.action 5 "root" ["other", "x"] ::
            (match (fun (_ : Nat) (_ : List String) => (none : Option String)) 5 ["other", "x"] with
             | some m => [Event.line ("error: " ++ m)]
             | none => []),
           (match (fun (_ : Nat) (_ : List String) => (none : Option String)) 5 ["other", "x"] with
            | some _ => ExecResult.exited 1
            | none => ExecResult.returned),
           Cmd.mk "root" "" (some { newFlagSet "root" with args := ["other", "x"] })
             (some [("sub", Cmd.mk "sub" "" none none none)]) (some (RunRef.user 5))) :=
  ⟨rfl, claim3_unmatched_full_args (fun _ _ => none) "prog" none "root" "" (newFlagSet "root")
    (some [("sub", Cmd.mk "sub" "" none none none)]) 5 "other" ["x"] rfl rfl⟩

/-- C2: when the only remaining positional argument names a registered
subcommand, dispatch recurses into that child with a zero-length argument
list (Go passes the nil slice, whose length is zero), and the child's flag
scope parses that empty list successfully. -/
theorem claim2_empty_args_child (env : Nat → List String → Option String)
    (progName : String) (parent : Option Cmd) (n d : String) (fs : FlagSet)
    (cmds : List (String × Cmd)) (run : Option RunRef) (tok : String) (sub : Cmd)
    (ht : tok ≠ "") (hf : flagLike tok = false) (hlk : lookupCmd cmds tok = some sub) :
    ExecArgs env progName parent (Cmd.mk n d (some fs) (some cmds) run) [tok]
        = ((ExecArgs env progName
              (some (Cmd.mk n d (some { fs with args := [tok] }) (some cmds) run)) sub []).1,
           (ExecArgs env progName
              (some (Cmd.mk n d (some { fs with args := [tok] }) (some cmds) run)) sub []).2.1,
           Cmd.mk n d (some { fs with args := [tok] })
             (some (updateCmd cmds tok
               (ExecArgs env progName
                 (some (Cmd.mk n d (some { fs with args := [tok] }) (some cmds) run)) sub
                 []).2.2)) run)
      ∧ parseArgs (sub.flags.getD (newFlagSet progName)).formal []
          = ((sub.flags.getD (newFlagSet progName)).formal, [], none) := by
  have hparse : parseArgs fs.formal [tok] = (fs.formal, [tok], none) :=
    parseArgs_stop hf fs.formal []
  have hsm : subMatch (some cmds) (([tok] : List String).headD "") = some sub := by
    simp [subMatch, ht, hlk]
  refine ⟨?_, parseArgs_nil _⟩
  rw [ExecArgs_sub hparse hsm]
  simp

theorem claim2_empty_args_child_witness :
    ("sub" : String) ≠ "" ∧ flagLike "sub" = false ∧
      (ExecArgs (fun _ _ => none) "prog" none
          (Cmd.mk "root" "" (some (newFlagSet "root"))
            (some [("sub", Cmd.mk "sub" "" none none none)]) none) ["sub"]
        = ((ExecArgs (fun _ _ => none) "prog"
              (some (Cmd.mk "root" "" (some { newFlagSet "root" with args := ["sub"] })
                (some [("sub", Cmd.mk "sub" "" none none none)]) none))
              (Cmd.mk "sub" "" none none none) []).1,
           (ExecArgs (fun _ _ => none) "prog"
              (some (Cmd.mk "root" "" (some { newFlagSet "root" with args := ["sub"] })
                (some [("sub", Cmd.mk "sub" "" none none none)]) none))
              (Cmd.mk "sub" "" none none none) []).2.1,
           Cmd.mk "root" "" (some { newFlagSet "root" with args := ["sub"] })
             (some (updateCmd [("sub", Cmd.mk "sub" "" none none none)] "sub"
               (ExecArgs (fun _ _ => none) "prog"
                 (some (Cmd.mk "root" "" (some { newFlagSet "root" with args := ["sub"] })
                   (some [("sub", Cmd.mk "sub" "" none none none)]) none))
                 (Cmd.mk "sub" "" none none none) []).2.2)) none)
      ∧ parseArgs ((Cmd.mk "sub" "" none none none).flags.getD (newFlagSet "prog")).formal []
          = (((Cmd.mk "sub" "" none none none).flags.getD (newFlagSet "prog")).formal, [],
             none)) :=
  ⟨by decide, rfl,
    claim2_empty_args_child (fun _ _ => none) "prog" none "root" "" (newFlagSet "root")
      [("sub", Cmd.mk "sub" "" none none none)] none "sub" (Cmd.mk "sub" "" none none none)
      (by decide) rfl rfl⟩

/-- A flag set with the `ContinueOnError` policy (only a caller-built flag
set can carry it), for the witness below. -/
def cfs4 : FlagSet :=
  { name := "root", errorHandling := .continueOnError, usage := .default,
    formal := [], args := [] }

/-- C4: the terminal outcomes of dispatch.  (a) With no action and no
matching subcommand token, the node's usage text is written and the process
exits with status 1.  (b) With a `ContinueOnError` flag set (the only way
`Parse` can return an error), a parse failure makes `ExecArgs` print the
`error parsing arguments: <detail>` diagnostic and exit with status 2; the
whole trace is the flag library's own failure output followed by that
diagnostic — no usage-or-action dispatch logic runs after it. -/
theorem claim4_exit_contract :
    (∀ (env : Nat → List String → Option String) (progName : String) (parent : Option Cmd)
        (n d : String) (fs : FlagSet) (cmdsOpt : Option (List (String × Cmd)))
        (args : List String) (fm2 : List (String × String)) (pos : List String),
        parseArgs fs.formal args = (fm2, pos, none) →
        subMatch cmdsOpt (pos.headD "") = none →
        ExecArgs env progName parent (Cmd.mk n d (some fs) cmdsOpt none) args
          = ((flagsUsage (Cmd.mk n d (some { fs with formal := fm2, args := pos })
                cmdsOpt none)).1,
             ExecResult.exited 1,
             (flagsUsage (Cmd.mk n d (some { fs with formal := fm2, args := pos })
                cmdsOpt none)).2))
  ∧ (∀ (env : Nat → List String → Option String) (progName : String) (parent : Option Cmd)
        (n d : String) (fs : FlagSet) (cmdsOpt : Option (List (String × Cmd)))
        (run : Option RunRef) (args : List String) (fm2 : List (String × String))
        (pos : List String) (m : String),
        fs.errorHandling = ErrorHandling.continueOnError →
        parseArgs fs.formal args = (fm2, pos, some (FlagErr.fail m)) →
        ExecArgs env progName parent (Cmd.mk n d (some fs) cmdsOpt run) args
          = ((Event.line m ::
               (flagsUsage (Cmd.mk n d (some { fs with formal := fm2, args := pos })
                 cmdsOpt run)).1) ++ [Event.parseDiag m],
             ExecResult.exited 2,
             (flagsUsage (Cmd.mk n d (some { fs with formal := fm2, args := pos })
               cmdsOpt run)).2)) := by
  constructor
  · intro env progName parent n d fs cmdsOpt args fm2 pos hp hm
    rw [ExecArgs_run hp hm]
    simp only [runPhase, Cmd.run]
  · intro env progName parent n d fs cmdsOpt run args fm2 pos m hpol hp
    rw [ExecArgs_parse_fail hp, hpol]
    simp only [parseFailResult, parseFailTrace, flagErrMsg]

theorem claim4_exit_contract_witness :
    (ExecArgs (fun _ _ => none) "prog" none
        (Cmd.mk "root" "" (some (newFlagSet "root")) none none) ["zzz"]
      = ((flagsUsage (Cmd.mk "root" ""
            (some { newFlagSet "root" with formal := [], args := ["zzz"] }) none none)).1,
         ExecResult.exited 1,
         (flagsUsage (Cmd.mk "root" ""
            (some { newFlagSet "root" with formal := [], args := ["zzz"] }) none none)).2))
  ∧ (ExecArgs (fun _ _ => none) "prog" none
        (Cmd.mk "root" "" (some cfs4) none none) ["--bogus"]
      = ((Event.line "flag provided but not defined: -bogus" ::
           (flagsUsage (Cmd.mk "root" ""
             (some { cfs4 with formal := [], args := [] }) none none)).1)
           ++ [Event.parseDiag "flag provided but not defined: -bogus"],
         ExecResult.exited 2,
         (flagsUsage (Cmd.mk "root" ""
           (some { cfs4 with formal := [], args := [] }) none none)).2)) :=
  ⟨claim4_exit_contract.1 (fun _ _ => none) "prog" none "root" "" (newFlagSet "root") none
      ["zzz"] [] ["zzz"] (parseArgs_stop (show flagLike "zzz" = false from rfl) [] []) rfl,
    claim4_exit_contract.2 (fun _ _ => none) "prog" none "root" "" cfs4 none none
      ["--bogus"] [] [] "flag provided but not defined: -bogus" rfl
      (parseArgs_cons_err (by decide))⟩

/-- C7: on a parent with registered subcommands, the help action invoked
with a first argument that is nonempty and names no child fails with the
`no such command: %q` error carrying the attempted name, and through
dispatch this surfaces as an action error: `error: <message>` is printed
and the process exits with status 1. -/
theorem claim7_no_such_command (env : Nat → List String → Option String) (progName : String)
    (parent : Cmd) (cmds : List (String × Cmd)) (a : String)
    (hc : parent.commands = some cmds) (hne : cmds ≠ []) (ha : a ≠ "")
    (hf : flagLike a = false) (hlk : lookupCmd cmds a = none) :
    helpRun parent [a] = ([], some ("no such command: " ++ goQuote a))
      ∧ ExecArgs env progName (some parent) (newHelpCmd parent) [a]
          = ([Event.line ("error: " ++ ("no such command: " ++ goQuote a))],
             ExecResult.exited 1,
             Cmd.mk "help" ("Print the help message for " ++ parent.name ++ " or a subcommand")
               (some { newFlagSet progName with args := [a] }) none (some RunRef.help)) := by
  have hhelp : helpRun parent [a] = ([], some ("no such command: " ++ goQuote a)) := by
    unfold helpRun helpTarget
    rw [hc]
    simp [hlk]
  refine ⟨hhelp, ?_⟩
  show ExecArgs env progName (some parent)
      (Cmd.mk "help" ("Print the help message for " ++ parent.name ++ " or a subcommand")
        none none (some RunRef.help)) [a] = _
  rw [ExecArgs_flags_none]
  have hparse : parseArgs (newFlagSet progName).formal [a]
      = ((newFlagSet progName).formal, [a], none) := parseArgs_stop hf _ []
  rw [ExecArgs_run hparse
    (show subMatch none (([a] : List String).headD "") = none from rfl)]
  simp only [runPhase, Cmd.run, Option.getD_some, hhelp]
  rfl

theorem claim7_no_such_command_witness :
    (Cmd.mk "app" "" none (some [("sub", Cmd.mk "sub" "" none none none)]) none).commands
        = some [("sub", Cmd.mk "sub" "" none none none)] ∧
    ("bogus" : String) ≠ "" ∧
      (helpRun (Cmd.mk "app" "" none (some [("sub", Cmd.mk "sub" "" none none none)]) none)
          ["bogus"] = ([], some ("no such command: " ++ goQuote "bogus"))
        ∧ ExecArgs (fun _ _ => none) "prog"
            (some (Cmd.mk "app" "" none (some [("sub", Cmd.mk "sub" "" none none none)]) none))
            (newHelpCmd (Cmd.mk "app" "" none
              (some [("sub", Cmd.mk "sub" "" none none none)]) none)) ["bogus"]
          = ([Event.line ("error: " ++ ("no such command: " ++ goQuote "bogus"))],
             ExecResult.exited 1,
             Cmd.mk "help"
               ("Print the help message for "
                 ++ (Cmd.mk "app" "" none
                      (some [("sub", Cmd.mk "sub" "" none none none)]) none).name
                 ++ " or a subcommand")
               (some { newFlagSet "prog" with args := ["bogus"] }) none (some RunRef.help))) :=
  ⟨rfl, by decide,
    claim7_no_such_command (fun _ _ => none) "prog"
      (Cmd.mk "app" "" none (some [("sub", Cmd.mk "sub" "" none none none)]) none)
      [("sub", Cmd.mk "sub" "" none none none)] "bogus" rfl (by simp) (by decide) rfl rfl⟩

/-- C5: `AddCmd` on a subcommand whose name is the empty string is the fatal
configuration error — the Go panic, modelled as `Except.error`; it is neither
a silent no-op (`Except.ok` with the tree unchanged) nor a recoverable error
value handed back by a non-panicking API. -/
theorem claim5_nameless_panic (c sub : Cmd) (h : sub.name = "") :
    c.AddCmd sub = Except.error "cannot add nameless subcommand" := by
  rcases c with ⟨n, d, fl, cmds, run⟩
  simp [Cmd.AddCmd, h]

theorem claim5_nameless_panic_witness :
    (Cmd.mk "" "" none none none).name = "" ∧
      (Cmd.mk "root" "" none none none).AddCmd (Cmd.mk "" "" none none none)
        = Except.error "cannot add nameless subcommand" :=
  ⟨rfl, claim5_nameless_panic (Cmd.mk "root" "" none none none)
    (Cmd.mk "" "" none none none) rfl⟩

/-- C8: the help action, run with no arguments on a childless node that has
a flag scope carrying the package's usage renderer (as the constructor
installs), renders the node's `<name> - <description>` line and its flags
and succeeds, and the rendered events contain no `Commands` header. -/
theorem claim8_childless_help (n d : String) (fs : FlagSet) (r : Option RunRef)
    (hu : fs.usage = UsageKind.cmndr) :
    helpRun (Cmd.mk n d (some fs) none r) []
        = (Event.line (n ++ " - " ++ d) :: Event.line "" :: Event.line "Flags" ::
            printDefaults fs, none)
      ∧ Event.line "Commands" ∉ (helpRun (Cmd.mk n d (some fs) none r) []).1 := by
  have h1 : helpRun (Cmd.mk n d (some fs) none r) []
      = (Event.line (n ++ " - " ++ d) :: Event.line "" :: Event.line "Flags" ::
          printDefaults fs, none) := by
    simp [helpRun, helpTarget, Cmd.commands, Cmd.flags, flagsUsage, hu, newUsage,
      printSubcommands]
  refine ⟨h1, ?_⟩
  rw [h1]
  simp only [List.mem_cons, not_or]
  refine ⟨?_, by simp, by simp, ?_⟩
  · intro h
    exact descr_line_ne_commands n d (Event.line.inj h).symm
  · intro h
    obtain ⟨t, ht⟩ := mem_printDefaults_line h
    exact defaults_line_ne_commands t (Event.line.inj ht).symm

/-- A concrete flag set with the package renderer installed, for the
witness below. -/
def wfs8 : FlagSet :=
  { name := "app", errorHandling := .exitOnError, usage := .cmndr,
    formal := [("verbose", "")], args := [] }

theorem claim8_childless_help_witness :
    wfs8.usage = UsageKind.cmndr ∧
      (helpRun (Cmd.mk "app" "does things" (some wfs8) none none) []
          = (Event.line ("app" ++ " - " ++ "does things") :: Event.line "" :: Event.line "Flags" ::
              printDefaults wfs8, none)
        ∧ Event.line "Commands" ∉ (helpRun (Cmd.mk "app" "does things" (some wfs8) none none) []).1) :=
  ⟨rfl, claim8_childless_help "app" "does things" wfs8 none rfl⟩

/-- The registered subcommand names of a node (the Go map's key set). -/
def cmdKeys (c : Cmd) : List String :=
  (c.commands.getD []).map Prod.fst

/-- The subcommand names in the order the rendered listing uses. -/
def subNames (c : Cmd) : List String :=
  sortStrings (cmdKeys c)

theorem lookupCmd_insertCmd (l : List (String × Cmd)) (k : String) (v : Cmd) :
    lookupCmd (insertCmd l k v) k = some v := by
  induction l with
  | nil => simp [insertCmd, lookupCmd]
  | cons hd t ih =>
    obtain ⟨k0, v0⟩ := hd
    by_cases h : k0 = k
    · simp [insertCmd, h, lookupCmd]
    · simp [insertCmd, h, lookupCmd, ih]

theorem keys_insertCmd (l : List (String × Cmd)) (k : String) (v : Cmd) :
    (insertCmd l k v).map Prod.fst
      = if k ∈ l.map Prod.fst then l.map Prod.fst else l.map Prod.fst ++ [k] := by
  induction l with
  | nil => simp [insertCmd]
  | cons hd t ih =>
    obtain ⟨k0, v0⟩ := hd
    by_cases h : k0 = k
    · simp [insertCmd, h]
    · simp only [insertCmd, if_neg h, List.map_cons, ih]
      by_cases hm : k ∈ t.map Prod.fst
      · simp [hm, Ne.symm h]
      · simp [hm, Ne.symm h]

theorem nodup_keys_insertCmd {l : List (String × Cmd)} (k : String) (v : Cmd)
    (h : (l.map Prod.fst).Nodup) : ((insertCmd l k v).map Prod.fst).Nodup := by
  rw [keys_insertCmd]
  split
  · exact h
  · rename_i hm
    simp [List.nodup_append, h, hm]

theorem count_keys_insertCmd {l : List (String × Cmd)} (k : String) (v : Cmd)
    (h : (l.map Prod.fst).Nodup) : ((insertCmd l k v).map Prod.fst).count k = 1 := by
  have hmem : k ∈ (insertCmd l k v).map Prod.fst := by
    rw [keys_insertCmd]
    split
    · assumption
    · simp
  exact List.count_eq_one_of_mem (nodup_keys_insertCmd k v h) hmem

/-- The effect of a map insert on the key set. -/
def insKey (K : List String) (k : String) : List String :=
  if k ∈ K then K else K ++ [k]

theorem insKey_of_mem {K : List String} {k : String} (h : k ∈ K) : insKey K k = K :=
  if_pos h

theorem insKey_of_not_mem {K : List String} {k : String} (h : k ∉ K) :
    insKey K k = K ++ [k] :=
  if_neg h

theorem keys_insertCmd_insKey (l : List (String × Cmd)) (k : String) (v : Cmd) :
    (insertCmd l k v).map Prod.fst = insKey (l.map Prod.fst) k :=
  keys_insertCmd l k v

theorem insKey_comm {K : List String} {k1 k2 : String} (hne : k1 ≠ k2) :
    (insKey (insKey K k1) k2).Perm (insKey (insKey K k2) k1) := by
  have h21 : k2 ≠ k1 := Ne.symm hne
  by_cases hm1 : k1 ∈ K <;> by_cases hm2 : k2 ∈ K
  · rw [insKey_of_mem hm1, insKey_of_mem hm2, insKey_of_mem hm1]
  · rw [insKey_of_mem hm1, insKey_of_not_mem hm2,
      insKey_of_mem (List.mem_append_left _ hm1)]
  · rw [insKey_of_not_mem hm1, insKey_of_mem hm2,
      insKey_of_mem (List.mem_append_left _ hm2), insKey_of_not_mem hm1]
  · have hn2 : k2 ∉ K ++ [k1] := by
      intro hmem
      rcases List.mem_append.mp hmem with h | h
      · exact hm2 h
      · exact h21 (List.mem_singleton.mp h)
    have hn1 : k1 ∉ K ++ [k2] := by
      intro hmem
      rcases List.mem_append.mp hmem with h | h
      · exact hm1 h
      · exact hne (List.mem_singleton.mp h)
    rw [insKey_of_not_mem hm1, insKey_of_not_mem hn2, insKey_of_not_mem hm2,
      insKey_of_not_mem hn1]
    rw [List.append_assoc, List.append_assoc]
    exact List.Perm.append_left _ (@List.perm_append_comm _ [k1] [k2])

theorem AddCmd_ok {c sub : Cmd} (h : sub.name ≠ "") :
    c.AddCmd sub = Except.ok (Cmd.mk c.name c.description c.flags
      (some (insertCmd (c.commands.getD []) sub.name sub)) c.run) := by
  rcases c with ⟨n, d, fl, cmds, run⟩
  rcases sub with ⟨sn, sd, sfl, scmds, srun⟩
  simp only [Cmd.name] at h
  simp [Cmd.AddCmd, h, Cmd.name, Cmd.description, Cmd.flags, Cmd.commands, Cmd.run]

/-- C6: the subcommand registry and its rendering.  (1) A second
registration under the same name replaces the first: lookup finds the
second and (given the Go-map invariant of unique keys) the name has exactly
one entry afterwards.  (2) `printSubcommands` renders exactly one row per
name of `subNames`.  (3) `subNames` is always sorted lexicographically and
is a permutation of the registered key set.  (4) The listing does not
depend on the registration order. -/
theorem claim6_replace_sorted :
    (∀ c s1 s2 c1 c2 : Cmd,
        s2.name = s1.name → s1.name ≠ "" →
        c.AddCmd s1 = Except.ok c1 → c1.AddCmd s2 = Except.ok c2 →
        lookupCmd (c2.commands.getD []) s1.name = some s2
          ∧ ((cmdKeys c).Nodup → (cmdKeys c2).count s1.name = 1))
  ∧ (∀ (c : Cmd) (cmds : List (String × Cmd)), c.commands = some cmds →
        printSubcommands c
          = Event.line "" :: Event.line "Commands" ::
              (subNames c).map (fun nm =>
                Event.line ("\t\t" ++ nm ++ "\t"
                  ++ ((lookupCmd cmds nm).map Cmd.description).getD "")))
  ∧ (∀ c : Cmd, (subNames c).Sorted (· ≤ ·) ∧ (subNames c).Perm (cmdKeys c))
  ∧ (∀ c s1 s2 a b c12 c21 : Cmd,
        s1.name ≠ s2.name → s1.name ≠ "" → s2.name ≠ "" →
        c.AddCmd s1 = Except.ok a → a.AddCmd s2 = Except.ok c12 →
        c.AddCmd s2 = Except.ok b → b.AddCmd s1 = Except.ok c21 →
        subNames c12 = subNames c21) := by
  refine ⟨?_, ?_, ?_, ?_⟩
  · intro c s1 s2 c1 c2 hname h1 ha hb
    have h2 : s2.name ≠ "" := by rw [hname]; exact h1
    rw [AddCmd_ok h1] at ha
    injection ha with ha
    subst ha
    rw [AddCmd_ok h2] at hb
    injection hb with hb
    subst hb
    simp only [Cmd.commands, Option.getD_some, hname]
    refine ⟨lookupCmd_insertCmd _ _ _, fun hnd => ?_⟩
    unfold cmdKeys
    simp only [Cmd.commands, Option.getD_some, hname]
    exact count_keys_insertCmd _ _ (nodup_keys_insertCmd _ _ hnd)
  · intro c cmds hc
    unfold printSubcommands subNames cmdKeys
    rw [hc]
    simp
  · intro c
    exact ⟨List.sorted_insertionSort _ _, List.perm_insertionSort _ _⟩
  · intro c s1 s2 a b c12 c21 hne h1 h2 ha hb hc hd
    rw [AddCmd_ok h1] at ha
    injection ha with ha
    subst ha
    rw [AddCmd_ok h2] at hb
    injection hb with hb
    subst hb
    rw [AddCmd_ok h2] at hc
    injection hc with hc
    subst hc
    rw [AddCmd_ok h1] at hd
    injection hd with hd
    subst hd
    unfold subNames cmdKeys
    simp only [Cmd.commands, Cmd.name, Cmd.description, Cmd.flags, Cmd.run, Option.getD_some]
    have hperm :
        ((insertCmd (insertCmd (c.commands.getD []) s1.name s1) s2.name s2).map
            Prod.fst).Perm
          ((insertCmd (insertCmd (c.commands.getD []) s2.name s2) s1.name s1).map
            Prod.fst) := by
      rw [keys_insertCmd_insKey, keys_insertCmd_insKey, keys_insertCmd_insKey,
        keys_insertCmd_insKey]
      exact insKey_comm hne
    unfold sortStrings
    exact List.eq_of_perm_of_sorted
      ((List.perm_insertionSort _ _).trans (hperm.trans (List.perm_insertionSort _ _).symm))
      (List.sorted_insertionSort _ _) (List.sorted_insertionSort _ _)

theorem claim6_replace_sorted_witness :
    (Cmd.mk "za" "second" none none none).name = (Cmd.mk "za" "" none none none).name ∧
      (∃ c1 c2 : Cmd,
        (Cmd.mk "r" "" none none none).AddCmd (Cmd.mk "za" "" none none none) = Except.ok c1
        ∧ c1.AddCmd (Cmd.mk "za" "second" none none none) = Except.ok c2
        ∧ lookupCmd (c2.commands.getD []) (Cmd.mk "za" "" none none none).name
            = some (Cmd.mk "za" "second" none none none)
        ∧ (cmdKeys c2).count (Cmd.mk "za" "" none none none).name = 1)
    ∧ subNames (Cmd.mk "r" "" none
        (some [("zeta", Cmd.mk "zeta" "" none none none),
               ("alpha", Cmd.mk "alpha" "" none none none)]) none) = ["alpha", "zeta"] := by
  have key := claim6_replace_sorted.1 (Cmd.mk "r" "" none none none)
    (Cmd.mk "za" "" none none none) (Cmd.mk "za" "second" none none none) _ _
    rfl (by decide) rfl rfl
  refine ⟨rfl, ⟨_, _, rfl, rfl, key.1, key.2 (by simp [cmdKeys, Cmd.commands])⟩, ?_⟩
  have h1 : ¬ (("zeta" : String) ≤ "alpha") := by
    rw [String.le_iff_toList_le]
    decide
  simp [subNames, cmdKeys, sortStrings, Cmd.commands, List.insertionSort,
    List.orderedInsert, h1]

mutual
/-- Erase every flag scope in a command tree: the part of a node dispatch
never touches. -/
def stripFlags : Cmd → Cmd
  | Cmd.mk n d _ cmds r => Cmd.mk n d none (stripFlagsOpt cmds) r

def stripFlagsOpt : Option (List (String × Cmd)) → Option (List (String × Cmd))
  | none => none
  | some l => some (stripFlagsList l)

def stripFlagsList : List (String × Cmd) → List (String × Cmd)
  | [] => []
  | (k, c) :: t => (k, stripFlags c) :: stripFlagsList t
end

theorem stripFlags_mk (n d : String) (fl fl' : Option FlagSet)
    (cmds : Option (List (String × Cmd))) (r : Option RunRef) :
    stripFlags (Cmd.mk n d fl cmds r) = stripFlags (Cmd.mk n d fl' cmds r) := by
  rw [stripFlags, stripFlags]

theorem stripFlags_newUsage (c : Cmd) : stripFlags (newUsage c).2 = stripFlags c := by
  rcases c with ⟨n, d, fl, cmds, r⟩
  simp only [newUsage]
  exact stripFlags_mk n d _ fl cmds r

theorem stripFlags_flagsUsage (c : Cmd) : stripFlags (flagsUsage c).2 = stripFlags c := by
  unfold flagsUsage
  split
  · rfl
  · split
    · rfl
    · exact stripFlags_newUsage c

theorem stripFlags_runPhase (env : Nat → List String → Option String) (parent : Option Cmd)
    (c : Cmd) (pos : List String) :
    stripFlags (runPhase env parent c pos).2.2 = stripFlags c := by
  unfold runPhase
  split
  · exact stripFlags_flagsUsage c
  · split
    · rfl
    · rfl
  · split
    · rfl
    · rfl

theorem stripFlags_parseFailResult (e : FlagErr) (pol : ErrorHandling) (c : Cmd) :
    stripFlags (parseFailResult e pol c).2.2 = stripFlags c := by
  unfold parseFailResult
  split
  · exact stripFlags_flagsUsage c
  · exact stripFlags_flagsUsage c
  · exact stripFlags_flagsUsage c

theorem stripFlagsList_updateCmd {l : List (String × Cmd)} {k : String} {sub sub' : Cmd}
    (hlk : lookupCmd l k = some sub) (hs : stripFlags sub' = stripFlags sub) :
    stripFlagsList (updateCmd l k sub') = stripFlagsList l := by
  induction l with
  | nil => simp [lookupCmd] at hlk
  | cons hd t ih =>
    obtain ⟨k0, v0⟩ := hd
    simp only [lookupCmd] at hlk
    by_cases h : k0 = k
    · rw [if_pos h] at hlk
      injection hlk with hlk
      subst hlk
      rw [updateCmd, if_pos h, stripFlagsList, stripFlagsList, hs]
    · rw [if_neg h] at hlk
      rw [updateCmd, if_neg h, stripFlagsList, stripFlagsList, ih hlk]

theorem sizeOf_cmd_pos (c : Cmd) : 0 < sizeOf c := by
  rcases c with ⟨n, d, fl, cmds, r⟩
  simp only [Cmd.mk.sizeOf_spec]
  omega

theorem subMatch_some {cmdsOpt : Option (List (String × Cmd))} {arg0 : String} {sub : Cmd}
    (h : subMatch cmdsOpt arg0 = some sub) :
    ∃ cmds, cmdsOpt = some cmds ∧ lookupCmd cmds arg0 = some sub := by
  match cmdsOpt with
  | none => simp [subMatch] at h
  | some cmds =>
    refine ⟨cmds, rfl, ?_⟩
    simp only [subMatch] at h
    split at h
    · simp at h
    · exact h

/-- Dispatch mutates nothing outside the flag scopes: erasing every flag
scope, the tree `ExecArgs` returns is the tree it was given
(fuel-indexed induction over the tree size). -/
theorem stripFlags_ExecArgs_fuel (env : Nat → List String → Option String)
    (progName : String) :
    ∀ (fuel : Nat) (c : Cmd), sizeOf c ≤ fuel → ∀ (parent : Option Cmd) (args : List String),
      stripFlags (ExecArgs env progName parent c args).2.2 = stripFlags c := by
  intro fuel
  induction fuel with
  | zero =>
    intro c hc
    have := sizeOf_cmd_pos c
    omega
  | succ fuel ih =>
    intro c hc parent args
    rcases c with ⟨n, d, fl, cmdsOpt, run⟩
    have key : ∀ fs : FlagSet,
        stripFlags (ExecArgs env progName parent (Cmd.mk n d (some fs) cmdsOpt run) args).2.2
          = stripFlags (Cmd.mk n d (some fs) cmdsOpt run) := by
      intro fs
      rcases hpr : parseArgs fs.formal args with ⟨fm2, prest⟩
      rcases prest with ⟨pos, err⟩
      cases err with
      | some e =>
        rw [ExecArgs_parse_fail hpr, stripFlags_parseFailResult]
        exact stripFlags_mk n d _ (some fs) cmdsOpt run
      | none =>
        cases hsm : subMatch cmdsOpt (pos.headD "") with
        | none =>
          rw [ExecArgs_run hpr hsm, stripFlags_runPhase]
          exact stripFlags_mk n d _ (some fs) cmdsOpt run
        | some sub =>
          obtain ⟨cmds, hcm, hlk⟩ := subMatch_some hsm
          subst hcm
          have hsz : sizeOf sub ≤ fuel := by
            have h1 := lookupCmd_sizeOf hlk
            simp only [Cmd.mk.sizeOf_spec, Option.some.sizeOf_spec] at hc
            omega
          rw [ExecArgs_sub hpr hsm]
          rw [stripFlags, stripFlags, stripFlagsOpt, stripFlagsOpt, Option.getD_some,
            stripFlagsList_updateCmd hlk (ih sub hsz _ _)]
    cases fl with
    | some fs => exact key fs
    | none =>
      rw [ExecArgs_flags_none, key (newFlagSet progName)]
      exact stripFlags_mk n d _ none cmdsOpt run

/-- C9 (counterexample): dispatch does mutate a node: running a node whose
`Flags` field is nil lazily installs a flag set, so the returned node
differs from the input node. -/
theorem claim9_counterexample :
    (ExecArgs (fun _ _ => none) "prog" none
        (Cmd.mk "x" "" none none (some (RunRef.user 0))) []).2.2
      ≠ Cmd.mk "x" "" none none (some (RunRef.user 0)) := by
  rw [ExecArgs_flags_none,
    ExecArgs_run (parseArgs_nil (newFlagSet "prog").formal)
      (show subMatch none (([] : List String).headD "") = none from rfl)]
  simp [runPhase, Cmd.run, Cmd.name, Cmd.mk.injEq]

/-- C9 (amended): dispatch leaves every node's fields unchanged except the
flag scope: it lazily creates a flag set where one is absent and stores
parse state in it, but names, descriptions, subcommand registrations and
actions are untouched — erasing every flag scope, the returned tree equals
the input tree. -/
theorem claim9_only_flag_mutation (env : Nat → List String → Option String)
    (progName : String) (parent : Option Cmd) (c : Cmd) (args : List String) :
    stripFlags (ExecArgs env progName parent c args).2.2 = stripFlags c :=
  stripFlags_ExecArgs_fuel env progName (sizeOf c) c le_rfl parent args

theorem parseDiag_not_mem_flagsUsage {m : String} {c : Cmd} :
    Event.parseDiag m ∉ (flagsUsage c).1 := by
  intro h
  obtain ⟨t, ht⟩ := mem_flagsUsage_line h
  exact Event.noConfusion ht

theorem parseDiag_not_mem_parseFailTrace {m : String} {e : FlagErr} {c : Cmd} :
    Event.parseDiag m ∉ parseFailTrace e c := by
  unfold parseFailTrace
  split
  · intro h
    rcases List.mem_cons.mp h with h1 | h1
    · exact Event.noConfusion h1
    · exact parseDiag_not_mem_flagsUsage h1
  · exact parseDiag_not_mem_flagsUsage

theorem parseDiag_not_mem_helpRun {m : String} {parent : Cmd} {args : List String} :
    Event.parseDiag m ∉ (helpRun parent args).1 := by
  unfold helpRun
  split
  · simp
  · split
    · intro h
      rcases List.mem_cons.mp h with h1 | h1
      · exact Event.noConfusion h1
      · obtain ⟨t, ht⟩ := mem_printSubcommands_line h1
        exact Event.noConfusion ht
    · exact parseDiag_not_mem_flagsUsage

theorem parseDiag_not_mem_runPhase {m : String} {env : Nat → List String → Option String}
    {parent : Option Cmd} {c : Cmd} {pos : List String} :
    Event.parseDiag m ∉ (runPhase env parent c pos).1 := by
  unfold runPhase
  split
  · exact parseDiag_not_mem_flagsUsage
  · split
    · intro h
      rcases List.mem_append.mp h with h1 | h1
      · exact parseDiag_not_mem_helpRun h1
      · rw [List.mem_singleton] at h1
        exact Event.noConfusion h1
    · exact parseDiag_not_mem_helpRun
  · split
    · intro h
      simp at h
    · intro h
      simp at h

/-- Whether a flag set (if present) carries the exit-on-error policy. -/
def flagPolicyOk : Option FlagSet → Bool
  | none => true
  | some fs => fs.errorHandling == ErrorHandling.exitOnError

mutual
/-- Every flag set stored in the tree carries the exit-on-error policy (the
only policy this package ever installs). -/
def allExitOnError : Cmd → Bool
  | Cmd.mk _ _ fl cmds _ => flagPolicyOk fl && allExitOnErrorOpt cmds

def allExitOnErrorOpt : Option (List (String × Cmd)) → Bool
  | none => true
  | some l => allExitOnErrorList l

def allExitOnErrorList : List (String × Cmd) → Bool
  | [] => true
  | (_, c) :: t => allExitOnError c && allExitOnErrorList t
end

theorem allExitOnErrorList_lookup {l : List (String × Cmd)} {k : String} {sub : Cmd}
    (hall : allExitOnErrorList l = true) (hlk : lookupCmd l k = some sub) :
    allExitOnError sub = true := by
  induction l with
  | nil => simp [lookupCmd] at hlk
  | cons hd t ih =>
    obtain ⟨k0, v0⟩ := hd
    rw [allExitOnErrorList] at hall
    simp only [Bool.and_eq_true] at hall
    simp only [lookupCmd] at hlk
    split at hlk
    · injection hlk with hlk
      subst hlk
      exact hall.1
    · exact ih hall.2 hlk

/-- With every flag set in the tree on the exit-on-error policy, no dispatch
ever emits the `error parsing arguments:` diagnostic: `Parse` never returns
an error, so the `ContinueOnError` branch of `ExecArgs` is unreachable. -/
theorem noParseDiag_ExecArgs_fuel (env : Nat → List String → Option String)
    (progName : String) :
    ∀ (fuel : Nat) (c : Cmd), sizeOf c ≤ fuel → allExitOnError c = true →
      ∀ (parent : Option Cmd) (args : List String) (m : String),
        Event.parseDiag m ∉ (ExecArgs env progName parent c args).1 := by
  intro fuel
  induction fuel with
  | zero =>
    intro c hc
    have := sizeOf_cmd_pos c
    omega
  | succ fuel ih =>
    intro c hc hall parent args m
    rcases c with ⟨n, d, fl, cmdsOpt, run⟩
    rw [allExitOnError] at hall
    simp only [Bool.and_eq_true] at hall
    have key : ∀ fs : FlagSet, fs.errorHandling = ErrorHandling.exitOnError →
        Event.parseDiag m ∉
          (ExecArgs env progName parent (Cmd.mk n d (some fs) cmdsOpt run) args).1 := by
      intro fs hfs
      rcases hpr : parseArgs fs.formal args with ⟨fm2, prest⟩
      rcases prest with ⟨pos, err⟩
      cases err with
      | some e =>
        rw [ExecArgs_parse_fail hpr, hfs]
        unfold parseFailResult
        exact parseDiag_not_mem_parseFailTrace
      | none =>
        cases hsm : subMatch cmdsOpt (pos.headD "") with
        | none =>
          rw [ExecArgs_run hpr hsm]
          exact parseDiag_not_mem_runPhase
        | some sub =>
          obtain ⟨cmds, hcm, hlk⟩ := subMatch_some hsm
          subst hcm
          have hsz : sizeOf sub ≤ fuel := by
            have h1 := lookupCmd_sizeOf hlk
            simp only [Cmd.mk.sizeOf_spec, Option.some.sizeOf_spec] at hc
            omega
          have hsub : allExitOnError sub = true := by
            have h2 := hall.2
            rw [allExitOnErrorOpt] at h2
            exact allExitOnErrorList_lookup h2 hlk
          rw [ExecArgs_sub hpr hsm]
          exact ih sub hsz hsub _ _ m
    cases fl with
    | some fs =>
      refine key fs ?_
      have h1 := hall.1
      rw [flagPolicyOk] at h1
      exact eq_of_beq h1
    | none =>
      rw [ExecArgs_flags_none]
      exact key (newFlagSet progName) rfl

/-- C10: every flag set this package creates (`New`, and the lazy creations
in `ExecArgs` and `newUsage`, all of which call `newFlagSet`) carries the
exit-on-error policy, under which `Parse` terminates the process itself; so
for any tree whose flag sets all carry that policy, the `ContinueOnError`
branch of `ExecArgs` that prints `error parsing arguments: <detail>` and
exits 2 is unreachable anywhere in the dispatch. -/
theorem claim10_exit_on_error :
    (∀ (name : String) (run : Option RunRef),
        (New name run).flags.map FlagSet.errorHandling = some ErrorHandling.exitOnError)
  ∧ (∀ name : String, (newFlagSet name).errorHandling = ErrorHandling.exitOnError)
  ∧ (∀ (env : Nat → List String → Option String) (progName : String)
        (parent : Option Cmd) (c : Cmd) (args : List String) (m : String),
        allExitOnError c = true →
        Event.parseDiag m ∉ (ExecArgs env progName parent c args).1) :=
  ⟨fun _ _ => rfl, fun _ => rfl,
    fun env progName parent c args m hall =>
      noParseDiag_ExecArgs_fuel env progName (sizeOf c) c le_rfl hall parent args m⟩

theorem claim10_exit_on_error_witness :
    allExitOnError (New "app" none) = true ∧
      Event.parseDiag "flag provided but not defined: -bogus"
        ∉ (ExecArgs (fun _ _ => none) "prog" none (New "app" none) ["--bogus"]).1 := by
  have hall : allExitOnError (New "app" none) = true := by
    rw [show New "app" none
        = Cmd.mk "app" "" (some { newFlagSet "app" with usage := UsageKind.cmndr })
            (some [("help", Cmd.mk "help"
              ("Print the help message for " ++ "app" ++ " or a subcommand")
              none none (some RunRef.help))]) none from rfl]
    rw [allExitOnError, allExitOnErrorOpt, allExitOnErrorList, allExitOnError,
      allExitOnErrorOpt, allExitOnErrorList]
    rfl
  exact ⟨hall, claim10_exit_on_error.2.2 (fun _ _ => none) "prog" none (New "app" none)
    ["--bogus"] "flag provided but not defined: -bogus" hall⟩

/-- The depth-N node for the chain-dispatch scenario: one registered string
flag named `flag`, a user action, no subcommands. -/
def leafCmd : Cmd :=
  Cmd.mk "leaf" ""
    (some { name := "leaf", errorHandling := .exitOnError, usage := .default,
            formal := [("flag", "")], args := [] }) none (some (RunRef.user 7))

/-- `leafCmd` after dispatching `["--flag=v", "pos"]` to it: the flag holds
`v` in the leaf's own scope, the positional state is `["pos"]`. -/
def leafPost : Cmd :=
  Cmd.mk "leaf" ""
    (some { name := "leaf", errorHandling := .exitOnError, usage := .default,
            formal := [("flag", "v")], args := ["pos"] }) none (some (RunRef.user 7))

/-- A linear command chain: the node holds one child, keyed by the next
token, continuing the chain; the end of the token list is the leaf.  Every
intermediate level has a fresh flag scope with no flags registered. -/
def chainNode (leaf : Cmd) (selfName : String) : List String → Cmd
  | [] => leaf
  | b :: rest =>
    Cmd.mk selfName "" (some (newFlagSet selfName)) (some [(b, chainNode leaf b rest)]) none

/-- The chain after dispatch: each intermediate level's flag scope has
recorded the positionals it saw (and still has no flags registered — no
inheritance), and the leaf is replaced by its post-dispatch state. -/
def chainNodePost (leaf : Cmd) (selfName : String) (tail : List String) :
    List String → Cmd
  | [] => leaf
  | b :: rest =>
    Cmd.mk selfName ""
      (some { newFlagSet selfName with args := b :: (rest ++ tail) })
      (some [(b, chainNodePost leaf b tail rest)]) none

/-- C1: for a chain of any depth N whose successive child names are the
tokens of `names`, dispatching `names ++ ["--flag=v", "pos"]` at the root
runs the depth-N node's action with exactly `["pos"]`, the flag having been
consumed by — and recorded in — that node's own flag scope, while every
intermediate scope keeps its own (empty) flag registry: flags are not
inherited between levels. -/
theorem claim1_deep_dispatch (env : Nat → List String → Option String)
    (progName : String) (henv : env 7 ["pos"] = none) :
    ∀ (names : List String), (∀ x ∈ names, x ≠ "" ∧ flagLike x = false) →
      ∀ (selfName : String) (parent : Option Cmd),
      ExecArgs env progName parent (chainNode leafCmd selfName names)
          (names ++ ["--flag=v", "pos"])
        = ([Event.action 7 "leaf" ["pos"]], ExecResult.returned,
           chainNodePost leafPost selfName ["--flag=v", "pos"] names) := by
  intro names
  induction names with
  | nil =>
    intro _ selfName parent
    have hp : parseArgs [("flag", "")] ["--flag=v", "pos"]
        = ([("flag", "v")], ["pos"], none) := by
      rw [parseArgs_cons_cont (show parseOne [("flag", "")] "--flag=v" ["pos"]
          = ParseStep.cont [("flag", "v")] ["pos"] by decide)]
      exact parseArgs_stop (show flagLike "pos" = false from rfl) [("flag", "v")] []
    show ExecArgs env progName parent leafCmd ([] ++ ["--flag=v", "pos"]) = _
    rw [List.nil_append]
    unfold leafCmd
    rw [ExecArgs_run hp
      (show subMatch none ((["pos"] : List String).headD "") = none from rfl)]
    simp [runPhase, Cmd.run, Cmd.name, henv, leafPost, chainNodePost]
  | cons b rest ih =>
    intro hval selfName parent
    obtain ⟨hb_ne, hb_fl⟩ := hval b (List.mem_cons_self b rest)
    have hrest : ∀ x ∈ rest, x ≠ "" ∧ flagLike x = false :=
      fun x hx => hval x (List.mem_cons_of_mem b hx)
    show ExecArgs env progName parent
        (Cmd.mk selfName "" (some (newFlagSet selfName))
          (some [(b, chainNode leafCmd b rest)]) none)
        ((b :: rest) ++ ["--flag=v", "pos"]) = _
    rw [List.cons_append]
    have hp : parseArgs (newFlagSet selfName).formal (b :: (rest ++ ["--flag=v", "pos"]))
        = ([], b :: (rest ++ ["--flag=v", "pos"]), none) :=
      parseArgs_stop hb_fl _ _
    have hsm : subMatch (some [(b, chainNode leafCmd b rest)])
        ((b :: (rest ++ ["--flag=v", "pos"])).headD "")
        = some (chainNode leafCmd b rest) := by
      simp [subMatch, hb_ne, lookupCmd]
    rw [ExecArgs_sub hp hsm]
    have hlen : (b :: (rest ++ ["--flag=v", "pos"])).length > 1 := by
      simp
    rw [if_pos hlen]
    simp only [List.tail_cons, List.headD_cons, Option.getD_some]
    rw [ih hrest]
    rw [show updateCmd [(b, chainNode leafCmd b rest)] b
        (chainNodePost leafPost b ["--flag=v", "pos"] rest)
      = [(b, chainNodePost leafPost b ["--flag=v", "pos"] rest)] by
        rw [updateCmd, if_pos rfl]]
    rfl

theorem claim1_deep_dispatch_witness :
    (∀ x ∈ (["a", "b"] : List String), x ≠ "" ∧ flagLike x = false) ∧
      ExecArgs (fun _ _ => none) "prog" none (chainNode leafCmd "root" ["a", "b"])
          (["a", "b"] ++ ["--flag=v", "pos"])
        = ([Event.action 7 "leaf" ["pos"]], ExecResult.returned,
           chainNodePost leafPost "root" ["--flag=v", "pos"] ["a", "b"]) :=
  ⟨by decide,
    claim1_deep_dispatch (fun _ _ => none) "prog" rfl ["a", "b"] (by decide) "root" none⟩

end Cmndr
